import Mathlib

/-!
Shallow embedding of `lib/sqlalchemy_bulk_lazy_loader.py` (class `BulkLazyLoader`).

The SQL criterion produced by `LazyLoader._simple_lazy_clause` is modelled by the
inductive `Criterion`; session state, identity map and instance dicts are modelled
explicitly; the database is an oracle `db : QueryModel → List (Nat × Val)` standing
for `q.all()` on the one query the loader builds (which selects the target model
together with the join column, so rows are `(model, join_col_value)` pairs).
-/

namespace BulkLoad

/-- A column value, as read from a model: `none` models SQL NULL / Python `None`. -/
abbrev Val := Option Int

/-- One side of a `BinaryExpression`: a `Column`, a `BindParameter`
(carrying its key, its `ident` column and its preset value, the triple that
`_simple_lazy_clause` reports in `param_keys`), or any other SQL element. -/
inductive Operand where
  | col (id : Nat)
  | bindParam (key : Nat) (ident : Option Nat) (value : Option Int)
  | other (id : Nat)
deriving DecidableEq, Repr

/-- The operator of a `BinaryExpression`.  `BulkLazyLoader` never inspects it. -/
inductive SqlOperator where
  | eq
  | lt
  | gt
  | opOther (n : Nat)
deriving DecidableEq, Repr

/-- The operator of a `BooleanClauseList`. -/
inductive BoolOperator where
  | andOp
  | orOp
deriving DecidableEq, Repr

/-- The lazy-clause criterion: a `BinaryExpression` or a `BooleanClauseList`. -/
inductive Criterion where
  | binary (left right : Operand) (op : SqlOperator)
  | boolList (op : BoolOperator) (clauses : List Criterion)

/-- `isinstance(x, BindParameter)` on an operand. -/
def isBindParam : Operand → Bool
  | .bindParam _ _ _ => true
  | _ => false

/-- `isinstance(x, BinaryExpression)` on a criterion. -/
def isBinaryExpr : Criterion → Bool
  | .binary _ _ _ => true
  | _ => false

/-- `BulkLazyLoader._clause_has_no_parameters`: neither side is a `BindParameter`.
The source reads `clause.left` / `clause.right`, which only binary expressions
carry; validation guarantees every clause reaching this check is binary, and a
non-binary clause is (harmlessly) reported as having parameters. -/
def clauseHasNoParameters : Criterion → Bool
  | .binary l r _ => !(isBindParam l) && !(isBindParam r)
  | .boolList _ _ => false

mutual

/-- `BulkLazyLoader._get_join_col_from_criterion`: extract `Model.column_id` from
a criterion of the form `:param = Model.column_id` (either orientation), searching
the clauses of a `BooleanClauseList` for the first clause yielding a column. -/
def getJoinColFromCriterion : Criterion → Option Nat
  | .boolList _ clauses => getJoinColFromClauses clauses
  | .binary (.col c) (.bindParam _ _ _) _ => some c
  | .binary (.bindParam _ _ _) (.col c) _ => some c
  | .binary _ _ _ => none

/-- The `for clause in criterion.clauses` loop of
`_get_join_col_from_criterion`: first clause whose extraction succeeds. -/
def getJoinColFromClauses : List Criterion → Option Nat
  | [] => none
  | c :: rest =>
    match getJoinColFromCriterion c with
    | some col => some col
    | none => getJoinColFromClauses rest

end

/-- The bound-parameter slot a single operand contributes. -/
def operandParamKeys : Operand → List (Nat × Option Nat × Option Int)
  | .bindParam k i v => [(k, i, v)]
  | _ => []

mutual

/-- Modelled from the spec: `LazyLoader._simple_lazy_clause` (SQLAlchemy base
class, not part of this repository) returns the criterion together with
`param_keys`, one `(key, ident, value)` triple per bound-parameter slot occurring
in the criterion — spec §4.1: "Exactly one bound-parameter slot exists overall,
and its value is unset (not a literal) at configuration time". -/
def collectParamKeys : Criterion → List (Nat × Option Nat × Option Int)
  | .binary l r _ => operandParamKeys l ++ operandParamKeys r
  | .boolList _ clauses => collectParamKeysList clauses

/-- Bound-parameter slots of the clauses of a `BooleanClauseList`, in order. -/
def collectParamKeysList : List Criterion → List (Nat × Option Nat × Option Int)
  | [] => []
  | c :: rest => collectParamKeys c ++ collectParamKeysList rest

end

/-- The relationship configuration a `BulkLazyLoader` is constructed over:
its lazy criterion, `parent_property.secondary`, `parent_property.order_by`,
`self.uselist`, the relationship key `self.key`, and the owner class name used
in error messages. -/
structure RelationConfig where
  criterion : Criterion
  secondary : Option Nat
  order_by : List Nat
  uselist : Bool
  key : String
  modelName : String

/-- The message raised by `BulkLazyLoader._unsupported_relation`. -/
def unsupportedRelationMsg (cfg : RelationConfig) : String :=
  "BulkLazyLoader " ++ cfg.modelName ++ "." ++ cfg.key ++
    ": Only simple relations on 1 primary key and without custom joins are supported"

/-- The final `param_keys[0]` check of `_validate_relation`: raise when
`value is not None or ident is None`. -/
def paramKeyOk : List (Nat × Option Nat × Option Int) → Bool
  | [(_, ident, value)] => value.isNone && ident.isSome
  | _ => false

/-- `BulkLazyLoader._validate_relation` as a predicate: `true` iff the method
returns without raising `UnsupportedRelationError`.  Without a secondary table
the criterion must be a `BinaryExpression`; with one it must be an `and_`
`BooleanClauseList` of binary clauses; in both cases a join column must be
identifiable and exactly one parameter slot with unset value and known ident
must exist. -/
def validateRelation (cfg : RelationConfig) : Bool :=
  let param_keys := collectParamKeys cfg.criterion
  (match cfg.secondary, cfg.criterion with
   | none, .binary _ _ _ => true
   | none, _ => false
   | some _, .boolList .andOp clauses => clauses.all isBinaryExpr
   | some _, .boolList _ _ => false
   | some _, .binary _ _ _ => false)
  && (getJoinColFromCriterion cfg.criterion).isSome
  && param_keys.length == 1
  && paramKeyOk param_keys

/-- The constructed loader: the configuration plus the derived
`self._join_col` and `self._ident` fields set by `__init__`. -/
structure Loader where
  cfg : RelationConfig
  join_col : Nat
  ident : Nat

/-- `BulkLazyLoader.__init__`: compute `_join_col`, run `_validate_relation`
(raising `UnsupportedRelationError` with the `_unsupported_relation` message on
any deviation), then record `param_keys[0][1]` as `_ident`. -/
def mkLoader (cfg : RelationConfig) : Except String Loader :=
  if validateRelation cfg then
    match getJoinColFromCriterion cfg.criterion, collectParamKeys cfg.criterion with
    | some jc, (_, some identCol, _) :: _ => .ok ⟨cfg, jc, identCol⟩
    | _, _ => .error (unsupportedRelationMsg cfg)
  else .error (unsupportedRelationMsg cfg)

/-- A Python value a relationship attribute can hold after resolution:
`None`, a single related model, or a list of related models.  A list carries
the allocation identity of the `result[:]` copy that produced it, so aliasing
between owners is observable in the model. -/
inductive PyVal where
  | pyNone
  | row (id : Nat)
  | list (rows : List Nat) (allocId : Nat)
deriving DecidableEq, Repr

/-- A mapped model instance in the session: its object identity, its class,
its `instance_dict` (attribute store of resolved attributes only), and its
column values as read by the mapper accessors. -/
structure ModelObj where
  oid : Nat
  cls : Nat
  dict_ : List (String × PyVal)
  cols : List (Nat × Val)
deriving DecidableEq, Repr

/-- `key in instance_dict(model)`. -/
def hasKey (d : List (String × PyVal)) (k : String) : Bool :=
  d.any (fun p => p.1 == k)

/-- The class hierarchy: `ancestors c` lists every class `c` is an instance of
(including `c` itself), so `isinstance` is membership of the target class. -/
structure ClassHierarchy where
  ancestors : Nat → List Nat

/-- Python `isinstance(x, target)` for a model of class `c`. -/
def isinstance (h : ClassHierarchy) (c target : Nat) : Bool :=
  (h.ancestors c).contains target

/-- The session state the loader reads: `session.identity_map.values()` and the
object identities in `session.new`. -/
structure Session where
  identity_map : List ModelObj
  newObjs : List Nat

/-- `BulkLazyLoader._get_similar_unpopulated_models`: every model in the
identity map that is an instance of the triggering model's class, is not in
`session.new`, and does not yet have `self.key` in its instance dict. -/
def getSimilarUnpopulatedModels (key : String) (h : ClassHierarchy)
    (model : ModelObj) (session : Session) : List ModelObj :=
  session.identity_map.filter (fun possible =>
    isinstance h possible.cls model.cls
    && !(session.newObjs.contains possible.oid)
    && !(hasKey possible.dict_ key))

/-- `BulkLazyLoader._get_model_value`: read the model's value for a column via
the mapper accessors (`_get_state_attr_by_column` /
`_get_committed_state_attr_by_column`, external to this repository); both
surface the column's current value, with `none` for NULL/unset. -/
def getModelValue (model : ModelObj) (col : Nat) : Val :=
  match model.cols.lookup col with
  | some v => v
  | none => none

/-- `BulkLazyLoader._extract_non_list_result`: `None` on an empty result,
`result[0]` otherwise, with a (non-fatal) `util.warn` flag when more than one
row was returned for a `uselist=False` attribute. -/
def extractNonListResult (result : List Nat) : PyVal × Bool :=
  match result with
  | [] => (.pyNone, false)
  | [r] => (.row r, false)
  | r :: _ :: _ => (.row r, true)

/-- One `dict.get(value, []); dict[value].append(x)` step on an
insertion-ordered dictionary grouping values to lists. -/
def insertGrouped {α : Type} (g : List (Val × List α)) (v : Val) (x : α) :
    List (Val × List α) :=
  match g with
  | [] => [(v, [x])]
  | (v', xs) :: rest =>
    if v' = v then (v', xs ++ [x]) :: rest else (v', xs) :: insertGrouped rest v x

/-- `dict.get(value, [])` on such a grouping dictionary. -/
def lookupGrouped {α : Type} (g : List (Val × List α)) (v : Val) : List α :=
  match g with
  | [] => []
  | (v', xs) :: rest => if v' = v then xs else lookupGrouped rest v

/-- Output state of `_set_results_on_models`: the `set_committed_value` writes
performed (object identity, value) in order, the number of multiplicity
warnings emitted, and the running `current_model_result`. -/
structure DistOut where
  assignments : List (Nat × PyVal)
  warns : Nat
  current_result : PyVal
deriving Repr

/-- The inner `for model in models` loop of
`BulkLazyLoader._set_results_on_models`: copy the bucket (`result[:]`, the copy
receiving a fresh allocation identity), reduce it via
`_extract_non_list_result` when `uselist` is false, remember the value when the
model is `current_model`, and write it with `set_committed_value`. -/
def distributeToModels (uselist : Bool) (bucket : List Nat)
    (models : List ModelObj) (current : ModelObj) (acc : DistOut) : DistOut :=
  match models with
  | [] => acc
  | m :: rest =>
    let allocId := acc.assignments.length
    let extracted := extractNonListResult bucket
    let result : PyVal := if uselist then .list bucket allocId else extracted.1
    let warns := acc.warns + (if !uselist && extracted.2 then 1 else 0)
    let curr := if m.oid == current.oid then result else acc.current_result
    distributeToModels uselist bucket rest current
      ⟨acc.assignments ++ [(m.oid, result)], warns, curr⟩

/-- The outer `for value, models in param_value_to_models.items()` loop of
`_set_results_on_models`, fetching each key's bucket with
`param_value_to_results.get(value, [])`. -/
def distributeAll (uselist : Bool) (pvr : List (Val × List Nat))
    (pvm : List (Val × List ModelObj)) (current : ModelObj) (acc : DistOut) :
    DistOut :=
  match pvm with
  | [] => acc
  | (value, models) :: rest =>
    distributeAll uselist pvr rest current
      (distributeToModels uselist (lookupGrouped pvr value) models current acc)

/-- `BulkLazyLoader._set_results_on_models` (`current_model_result` starts as
Python `None` and is returned in `current_result`). -/
def setResultsOnModels (uselist : Bool) (pvr : List (Val × List Nat))
    (pvm : List (Val × List ModelObj)) (current : ModelObj) : DistOut :=
  distributeAll uselist pvr pvm current ⟨[], 0, .pyNone⟩

/-- The one query `_emit_lazyload` builds: `session.query(mapper, join_col)`,
optionally `select_from` the secondary table, the configured ordering, the
parameter-free static filter clauses re-applied from the criterion, and the
core `join_col.in_(param_values)` filter.  (The `_adapt_all_clauses`,
`_with_invoke_all_eagers(False)`, autoflush and reverse-property option calls
configure the external query object and are not observable here.) -/
structure QueryModel where
  select_from_secondary : Option Nat
  order_by : List Nat
  static_filters : List Criterion
  in_col : Nat
  in_values : List Val

/-- Observable outcome of one `_emit_lazyload` call: the queries executed (in
the source, the single `q.all()`), the `set_committed_value` writes, the
warning count, and the value returned to the caller. -/
structure EmitOut where
  queries : List QueryModel
  assignments : List (Nat × PyVal)
  warns : Nat
  result : PyVal

/-- `BulkLazyLoader._emit_lazyload`: discover similar unpopulated models,
group them by join-key value, build the one bulk query
(`join_col IN param_values`, plus the parameter-free clauses of the criterion
when a secondary table exists, plus the configured ordering), execute it once
via the oracle `db`, bucket the `(model, join_col_value)` rows by key, run
`_set_results_on_models`, and return `current_model_result`. -/
def emitLazyload (L : Loader) (h : ClassHierarchy) (session : Session)
    (current : ModelObj) (db : QueryModel → List (Nat × Val)) : EmitOut :=
  let similar := getSimilarUnpopulatedModels L.cfg.key h current session
  let pvm := similar.foldl (fun g m => insertGrouped g (getModelValue m L.ident) m) []
  let param_values := similar.map (fun m => getModelValue m L.ident)
  let static_filters :=
    match L.cfg.secondary, L.cfg.criterion with
    | some _, .boolList _ clauses => clauses.filter clauseHasNoParameters
    | _, _ => []
  let q : QueryModel :=
    { select_from_secondary := L.cfg.secondary
      order_by := L.cfg.order_by
      static_filters := static_filters
      in_col := L.join_col
      in_values := param_values }
  let results := db q
  let pvr := results.foldl (fun g r => insertGrouped g r.2 r.1) []
  let dist := setResultsOnModels L.cfg.uselist pvr pvm current
  { queries := [q]
    assignments := dist.assignments
    warns := dist.warns
    result := dist.current_result }

/-- Set a key in an instance dict, replacing an existing entry. -/
def setKeyIn (d : List (String × PyVal)) (k : String) (v : PyVal) :
    List (String × PyVal) :=
  if hasKey d k then d.map (fun p => if p.1 == k then (k, v) else p)
  else d ++ [(k, v)]

/-- Modelled from the spec: `attributes.set_committed_value` (SQLAlchemy,
external to this repository) — spec §6 `EntityInstance.writeResolvedAttribute
(name, value)`, "non-reentrant, bypasses lazy triggers": it installs the value
in the instance dict as if loaded from the database, firing no attribute events
and issuing no query. -/
def setCommittedValue (session : Session) (oid : Nat) (k : String) (v : PyVal) :
    Session :=
  { session with
    identity_map := session.identity_map.map (fun m =>
      if m.oid == oid then { m with dict_ := setKeyIn m.dict_ k v } else m) }

/-- Apply the writes of one distribution to the session, in order. -/
def applyAssignments (session : Session) (k : String) :
    List (Nat × PyVal) → Session
  | [] => session
  | (oid, v) :: rest => applyAssignments (setCommittedValue session oid k v) k rest

/-! ### Helper lemmas about the grouping dictionaries -/

theorem lookupGrouped_insertGrouped {α : Type} (g : List (Val × List α)) (v : Val)
    (x : α) (w : Val) :
    lookupGrouped (insertGrouped g v x) w =
      if v = w then lookupGrouped g w ++ [x] else lookupGrouped g w := by
  induction g with
  | nil =>
    by_cases hvw : v = w <;> simp [insertGrouped, lookupGrouped, hvw]
  | cons p rest ih =>
    obtain ⟨v', xs⟩ := p
    by_cases hv : v' = v
    · subst hv
      by_cases hw : v' = w <;> simp [insertGrouped, lookupGrouped, hw]
    · by_cases hw : v' = w
      · subst hw
        have hvw : ¬ v = v' := fun h => hv h.symm
        simp [insertGrouped, lookupGrouped, hv, hvw]
      · simp [insertGrouped, lookupGrouped, hv, hw, ih]

theorem lookupGrouped_foldl {α β : Type} (key : α → Val) (val : α → β)
    (l : List α) (init : List (Val × List β)) (w : Val) :
    lookupGrouped (l.foldl (fun g a => insertGrouped g (key a) (val a)) init) w =
      lookupGrouped init w ++ (l.filter (fun a => key a == w)).map val := by
  induction l generalizing init with
  | nil => simp
  | cons a rest ih =>
    simp only [List.foldl_cons, ih, lookupGrouped_insertGrouped]
    by_cases h : key a = w
    · simp [h, List.filter_cons]
    · have hb : (key a == w) = false := by simpa using h
      simp [h, List.filter_cons, hb]

/-- Flatten a grouping dictionary back to the list of all grouped elements. -/
def joinGrouped {α : Type} (g : List (Val × List α)) : List α :=
  (g.map Prod.snd).flatten

theorem countP_joinGrouped_insertGrouped {α : Type} (g : List (Val × List α))
    (v : Val) (x : α) (p : α → Bool) :
    (joinGrouped (insertGrouped g v x)).countP p =
      (joinGrouped g).countP p + (if p x then 1 else 0) := by
  induction g with
  | nil => by_cases hx : p x <;> simp [insertGrouped, joinGrouped, List.countP_cons, hx]
  | cons q rest ih =>
    obtain ⟨v', xs⟩ := q
    by_cases hv : v' = v
    · subst hv
      by_cases hx : p x <;>
        simp [insertGrouped, joinGrouped, List.countP_append, List.countP_cons, hx,
          Nat.add_assoc]
    · simp only [insertGrouped, if_neg hv, joinGrouped, List.map_cons, List.flatten_cons,
        List.countP_append] at ih ⊢
      omega

theorem countP_joinGrouped_foldl {α : Type} (key : α → Val) (l : List α)
    (init : List (Val × List α)) (p : α → Bool) :
    (joinGrouped (l.foldl (fun g a => insertGrouped g (key a) a) init)).countP p =
      (joinGrouped init).countP p + l.countP p := by
  induction l generalizing init with
  | nil => simp
  | cons a rest ih =>
    simp only [List.foldl_cons, ih, countP_joinGrouped_insertGrouped, List.countP_cons]
    omega

theorem mem_joinGrouped_foldl {α : Type} [DecidableEq α] (key : α → Val) (l : List α)
    (x : α) (hx : x ∈ joinGrouped (l.foldl (fun g a => insertGrouped g (key a) a) [])) :
    x ∈ l := by
  have h := countP_joinGrouped_foldl key l [] (fun a => decide (a = x))
  have hpos : 0 < (joinGrouped (l.foldl (fun g a => insertGrouped g (key a) a) [])).countP
      (fun a => decide (a = x)) := by
    rw [List.countP_pos_iff]
    exact ⟨x, hx, by simp⟩
  rw [h] at hpos
  simp only [joinGrouped, List.map_nil, List.flatten_nil, List.countP_nil, Nat.zero_add] at hpos
  rw [List.countP_pos_iff] at hpos
  obtain ⟨a, ha, hax⟩ := hpos
  exact (of_decide_eq_true hax) ▸ ha

theorem mem_bucket_foldl {α : Type} (key : α → Val) (l : List α) (w : Val) (x : α)
    (hx : x ∈ lookupGrouped (l.foldl (fun g a => insertGrouped g (key a) a) []) w) :
    x ∈ l ∧ key x = w := by
  have h := lookupGrouped_foldl key id l [] w
  simp only [id_eq] at h
  rw [h] at hx
  simp only [lookupGrouped, List.map_id, List.nil_append] at hx
  have := List.mem_filter.mp hx
  exact ⟨this.1, by simpa using this.2⟩

/-! ### Helper lemmas about the distribution loops -/

theorem distributeToModels_assignments_fst (uselist : Bool) (bucket : List Nat)
    (models : List ModelObj) (current : ModelObj) (acc : DistOut) :
    ((distributeToModels uselist bucket models current acc).assignments).map Prod.fst =
      acc.assignments.map Prod.fst ++ models.map ModelObj.oid := by
  induction models generalizing acc with
  | nil => simp [distributeToModels]
  | cons m rest ih =>
    simp [distributeToModels, ih, List.append_assoc]

theorem distributeAll_assignments_fst (uselist : Bool) (pvr : List (Val × List Nat))
    (pvm : List (Val × List ModelObj)) (current : ModelObj) (acc : DistOut) :
    ((distributeAll uselist pvr pvm current acc).assignments).map Prod.fst =
      acc.assignments.map Prod.fst ++ (joinGrouped pvm).map ModelObj.oid := by
  induction pvm generalizing acc with
  | nil => simp [distributeAll, joinGrouped]
  | cons q rest ih =>
    obtain ⟨v, models⟩ := q
    simp [distributeAll, ih, distributeToModels_assignments_fst, joinGrouped,
      List.append_assoc]

theorem distributeToModels_filter_zero (uselist : Bool) (bucket : List Nat)
    (models : List ModelObj) (current : ModelObj) (acc : DistOut)
    (h : models.countP (fun m => m.oid == current.oid) = 0) :
    (distributeToModels uselist bucket models current acc).current_result =
        acc.current_result ∧
      (distributeToModels uselist bucket models current acc).assignments.filter
          (fun p => p.1 == current.oid) =
        acc.assignments.filter (fun p => p.1 == current.oid) := by
  induction models generalizing acc with
  | nil => simp [distributeToModels]
  | cons m rest ih =>
    have hm : (m.oid == current.oid) = false := by
      by_cases hb : (m.oid == current.oid) = true
      · rw [List.countP_cons_of_pos _ _ (by exact hb)] at h
        omega
      · simpa using hb
    have hrest : rest.countP (fun m => m.oid == current.oid) = 0 := by
      rw [List.countP_cons_of_neg _ _ (by simp [hm])] at h
      exact h
    rw [distributeToModels]
    have := ih ⟨acc.assignments ++ [(m.oid,
        if uselist then PyVal.list bucket acc.assignments.length
        else (extractNonListResult bucket).1)],
      acc.warns + (if !uselist && (extractNonListResult bucket).2 then 1 else 0),
      if m.oid == current.oid then
        (if uselist then PyVal.list bucket acc.assignments.length
         else (extractNonListResult bucket).1)
      else acc.current_result⟩ hrest
    simp only [hm, Bool.false_eq_true, if_neg (by simp [hm] : ¬ (m.oid == current.oid) = true)]
      at this ⊢
    rw [this.1, this.2]
    refine ⟨rfl, ?_⟩
    rw [List.filter_append]
    simp [hm]

theorem distributeToModels_filter_one (uselist : Bool) (bucket : List Nat)
    (models : List ModelObj) (current : ModelObj) (acc : DistOut)
    (h : models.countP (fun m => m.oid == current.oid) = 1) :
    (distributeToModels uselist bucket models current acc).assignments.filter
        (fun p => p.1 == current.oid) =
      acc.assignments.filter (fun p => p.1 == current.oid) ++
        [(current.oid,
          (distributeToModels uselist bucket models current acc).current_result)] := by
  induction models generalizing acc with
  | nil => simp at h
  | cons m rest ih =>
    by_cases hm : (m.oid == current.oid) = true
    · have hoid : m.oid = current.oid := by simpa using hm
      have hrest : rest.countP (fun m => m.oid == current.oid) = 0 := by
        rw [List.countP_cons_of_pos _ _ (by exact hm)] at h
        omega
      rw [distributeToModels]
      set result := if uselist then PyVal.list bucket acc.assignments.length
        else (extractNonListResult bucket).1 with hres
      have hz := distributeToModels_filter_zero uselist bucket rest current
        ⟨acc.assignments ++ [(m.oid, result)],
         acc.warns + (if !uselist && (extractNonListResult bucket).2 then 1 else 0),
         if m.oid == current.oid then result else acc.current_result⟩ hrest
      simp only [hm, if_pos rfl] at hz ⊢
      rw [hz.1, hz.2]
      rw [List.filter_append]
      simp [hm, hoid]
    · have hmf : (m.oid == current.oid) = false := by simpa using hm
      have hrest : rest.countP (fun m => m.oid == current.oid) = 1 := by
        rw [List.countP_cons_of_neg _ _ (by simp [hmf])] at h
        exact h
      rw [distributeToModels]
      set result := if uselist then PyVal.list bucket acc.assignments.length
        else (extractNonListResult bucket).1 with hres
      have := ih ⟨acc.assignments ++ [(m.oid, result)],
        acc.warns + (if !uselist && (extractNonListResult bucket).2 then 1 else 0),
        if m.oid == current.oid then result else acc.current_result⟩ hrest
      simp only [hmf, Bool.false_eq_true, if_neg (by simp [hmf] :
        ¬ (m.oid == current.oid) = true)] at this ⊢
      rw [this, List.filter_append]
      simp [hmf]

theorem joinGrouped_cons {α : Type} (v : Val) (ms : List α) (rest : List (Val × List α)) :
    joinGrouped ((v, ms) :: rest) = ms ++ joinGrouped rest := by
  simp [joinGrouped]

theorem keys_insertGrouped {α : Type} (g : List (Val × List α)) (v : Val) (x : α) :
    (insertGrouped g v x).map Prod.fst = g.map Prod.fst ∨
      ((insertGrouped g v x).map Prod.fst = g.map Prod.fst ++ [v] ∧
        v ∉ g.map Prod.fst) := by
  induction g with
  | nil => right; simp [insertGrouped]
  | cons q rest ih =>
    obtain ⟨v', xs⟩ := q
    by_cases hv : v' = v
    · left
      simp [insertGrouped, hv]
    · rcases ih with h | ⟨h, hmem⟩
      · left
        simp [insertGrouped, hv, h]
      · right
        constructor
        · simp [insertGrouped, hv, h]
        · simp only [List.map_cons, List.mem_cons]
          rintro (h1 | h2)
          · exact hv h1.symm
          · exact hmem h2

theorem nodupKeys_foldl {α : Type} (key : α → Val) (l : List α)
    (init : List (Val × List α)) (h : (init.map Prod.fst).Nodup) :
    ((l.foldl (fun g a => insertGrouped g (key a) a) init).map Prod.fst).Nodup := by
  induction l generalizing init with
  | nil => simpa using h
  | cons a rest ih =>
    rw [List.foldl_cons]
    refine ih _ ?_
    rcases keys_insertGrouped init (key a) a with h1 | ⟨h1, hmem⟩
    · rw [h1]; exact h
    · rw [h1]
      refine List.Nodup.append h (List.nodup_singleton _) ?_
      simp only [List.disjoint_singleton]
      exact hmem

theorem lookupGrouped_of_mem {α : Type} (g : List (Val × List α)) (v : Val)
    (ms : List α) (hnd : (g.map Prod.fst).Nodup) (hmem : (v, ms) ∈ g) :
    lookupGrouped g v = ms := by
  induction g with
  | nil => simp at hmem
  | cons q rest ih =>
    obtain ⟨v', xs⟩ := q
    rw [List.map_cons, List.nodup_cons] at hnd
    rcases List.mem_cons.mp hmem with h | h
    · injection h with h1 h2
      subst h1
      subst h2
      simp [lookupGrouped]
    · have hv : ¬ v' = v := by
        intro he
        have hvmem : v ∈ List.map Prod.fst rest := List.mem_map.mpr ⟨(v, ms), h, rfl⟩
        exact hnd.1 (he.symm ▸ hvmem)
      rw [lookupGrouped, if_neg hv]
      exact ih hnd.2 h

theorem distributeToModels_mem (uselist : Bool) (bucket : List Nat)
    (models : List ModelObj) (current : ModelObj) (acc : DistOut)
    (p : Nat × PyVal)
    (hp : p ∈ (distributeToModels uselist bucket models current acc).assignments) :
    p ∈ acc.assignments ∨ ∃ m ∈ models, p.1 = m.oid ∧
      ∃ a, p.2 = if uselist then PyVal.list bucket a
                 else (extractNonListResult bucket).1 := by
  induction models generalizing acc with
  | nil => exact Or.inl hp
  | cons m rest ih =>
    rw [distributeToModels] at hp
    rcases ih _ hp with h | ⟨m', hm', h1, a, h2⟩
    · rcases List.mem_append.mp h with h | h
      · exact Or.inl h
      · right
        refine ⟨m, List.mem_cons_self .., ?_, acc.assignments.length, ?_⟩
        · rw [List.mem_singleton.mp h]
        · rw [List.mem_singleton.mp h]
    · exact Or.inr ⟨m', List.mem_cons_of_mem _ hm', h1, a, h2⟩

theorem distributeAll_mem (uselist : Bool) (pvr : List (Val × List Nat))
    (pvm : List (Val × List ModelObj)) (current : ModelObj) (acc : DistOut)
    (p : Nat × PyVal)
    (hp : p ∈ (distributeAll uselist pvr pvm current acc).assignments) :
    p ∈ acc.assignments ∨ ∃ v models m, (v, models) ∈ pvm ∧ m ∈ models ∧
      p.1 = m.oid ∧
      ∃ a, p.2 = if uselist then PyVal.list (lookupGrouped pvr v) a
                 else (extractNonListResult (lookupGrouped pvr v)).1 := by
  induction pvm generalizing acc with
  | nil => exact Or.inl hp
  | cons q rest ih =>
    obtain ⟨v, models⟩ := q
    rw [distributeAll] at hp
    rcases ih _ hp with h | ⟨v', models', m', hmem, hm', h1, a, h2⟩
    · rcases distributeToModels_mem _ _ _ _ _ _ h with h | ⟨m', hm', h1, a, h2⟩
      · exact Or.inl h
      · exact Or.inr ⟨v, models, m', List.mem_cons_self .., hm', h1, a, h2⟩
    · exact Or.inr ⟨v', models', m', List.mem_cons_of_mem _ hmem, hm', h1, a, h2⟩

theorem distributeAll_filter_zero (uselist : Bool) (pvr : List (Val × List Nat))
    (pvm : List (Val × List ModelObj)) (current : ModelObj) (acc : DistOut)
    (h : (joinGrouped pvm).countP (fun m => m.oid == current.oid) = 0) :
    (distributeAll uselist pvr pvm current acc).current_result = acc.current_result ∧
      (distributeAll uselist pvr pvm current acc).assignments.filter
          (fun p => p.1 == current.oid) =
        acc.assignments.filter (fun p => p.1 == current.oid) := by
  induction pvm generalizing acc with
  | nil => simp [distributeAll]
  | cons q rest ih =>
    obtain ⟨v, models⟩ := q
    rw [joinGrouped_cons, List.countP_append] at h
    have h1 : models.countP (fun m => m.oid == current.oid) = 0 := by omega
    have h2 : (joinGrouped rest).countP (fun m => m.oid == current.oid) = 0 := by omega
    rw [distributeAll]
    have hz := distributeToModels_filter_zero uselist (lookupGrouped pvr v) models
      current acc h1
    have := ih (distributeToModels uselist (lookupGrouped pvr v) models current acc) h2
    rw [this.1, this.2, hz.1, hz.2]
    exact ⟨rfl, rfl⟩

theorem distributeAll_filter_one (uselist : Bool) (pvr : List (Val × List Nat))
    (pvm : List (Val × List ModelObj)) (current : ModelObj) (acc : DistOut)
    (h : (joinGrouped pvm).countP (fun m => m.oid == current.oid) = 1) :
    (distributeAll uselist pvr pvm current acc).assignments.filter
        (fun p => p.1 == current.oid) =
      acc.assignments.filter (fun p => p.1 == current.oid) ++
        [(current.oid, (distributeAll uselist pvr pvm current acc).current_result)] := by
  induction pvm generalizing acc with
  | nil => simp [distributeAll, joinGrouped] at h
  | cons q rest ih =>
    obtain ⟨v, models⟩ := q
    rw [joinGrouped_cons, List.countP_append] at h
    rw [distributeAll]
    by_cases h1 : models.countP (fun m => m.oid == current.oid) = 1
    · have h2 : (joinGrouped rest).countP (fun m => m.oid == current.oid) = 0 := by omega
      have ho := distributeToModels_filter_one uselist (lookupGrouped pvr v) models
        current acc h1
      have hz := distributeAll_filter_zero uselist pvr rest current
        (distributeToModels uselist (lookupGrouped pvr v) models current acc) h2
      rw [hz.1, hz.2, ho]
    · have h1' : models.countP (fun m => m.oid == current.oid) = 0 := by omega
      have h2 : (joinGrouped rest).countP (fun m => m.oid == current.oid) = 1 := by omega
      have hz := distributeToModels_filter_zero uselist (lookupGrouped pvr v) models
        current acc h1'
      rw [ih _ h2, hz.2]

/-- A member of a group of the foldl-built key grouping comes from the grouped
list and carries exactly the group's key. -/
theorem mem_grouped_key {α : Type} (key : α → Val) (l : List α) (v : Val)
    (ms : List α)
    (hvm : (v, ms) ∈ l.foldl (fun g a => insertGrouped g (key a) a) [])
    (x : α) (hx : x ∈ ms) : x ∈ l ∧ key x = v := by
  have hnd : ((l.foldl (fun g a => insertGrouped g (key a) a) []).map
      Prod.fst).Nodup :=
    nodupKeys_foldl key l [] (by simp)
  have hlook := lookupGrouped_of_mem _ v ms hnd hvm
  refine mem_bucket_foldl key l v x ?_
  rw [hlook]
  exact hx

/-- Invariant for `TO_MANY` distribution: every assignment so far writes, for
some grouped owner `m` with group key `v` (related by `P`), the list value
`lookupGrouped pvr v` — that owner's own key bucket — under an allocation
identity equal to the assignment's own position. -/
def listInvP (pvr : List (Val × List Nat)) (P : ModelObj → Val → Prop)
    (acc : DistOut) : Prop :=
  ∀ k, (hk : k < acc.assignments.length) → ∃ m v,
    acc.assignments[k] = (m.oid, PyVal.list (lookupGrouped pvr v) k) ∧ P m v

theorem distributeToModels_listInvP (pvr : List (Val × List Nat))
    (P : ModelObj → Val → Prop) (bucket : List Nat) (models : List ModelObj)
    (current : ModelObj) (acc : DistOut) (v0 : Val)
    (hb : bucket = lookupGrouped pvr v0) (hP : ∀ m ∈ models, P m v0)
    (hacc : listInvP pvr P acc) :
    listInvP pvr P (distributeToModels true bucket models current acc) := by
  induction models generalizing acc with
  | nil => exact hacc
  | cons m rest ih =>
    rw [distributeToModels]
    refine ih _ (fun s hs => hP s (List.mem_cons_of_mem _ hs)) ?_
    intro k hk
    simp only [List.length_append, List.length_cons, List.length_nil] at hk
    by_cases hlt : k < acc.assignments.length
    · obtain ⟨m1, v1, hkv, hp1⟩ := hacc k hlt
      refine ⟨m1, v1, ?_, hp1⟩
      simpa [List.getElem_append_left hlt] using hkv
    · have hkeq : k = acc.assignments.length := by omega
      subst hkeq
      refine ⟨m, v0, ?_, hP m (List.mem_cons_self ..)⟩
      simp [List.getElem_concat_length, hb]

theorem distributeAll_listInvP (pvr : List (Val × List Nat))
    (P : ModelObj → Val → Prop) (pvm : List (Val × List ModelObj))
    (current : ModelObj) (acc : DistOut)
    (hP : ∀ v models, (v, models) ∈ pvm → ∀ m ∈ models, P m v)
    (hacc : listInvP pvr P acc) :
    listInvP pvr P (distributeAll true pvr pvm current acc) := by
  induction pvm generalizing acc with
  | nil => exact hacc
  | cons q rest ih =>
    obtain ⟨v, models⟩ := q
    rw [distributeAll]
    refine ih _ (fun v' ms hm => hP v' ms (List.mem_cons_of_mem _ hm))
      (distributeToModels_listInvP pvr P _ models current acc v rfl
        (hP v models (List.mem_cons_self ..)) hacc)

theorem setResults_countP (uselist : Bool) (pvr : List (Val × List Nat))
    (pvm : List (Val × List ModelObj)) (current : ModelObj) (oid : Nat) :
    (setResultsOnModels uselist pvr pvm current).assignments.countP
        (fun p => p.1 == oid) =
      (joinGrouped pvm).countP (fun m => m.oid == oid) := by
  have h1 := distributeAll_assignments_fst uselist pvr pvm current ⟨[], 0, .pyNone⟩
  simp only [List.map_nil, List.nil_append] at h1
  have h2 : (setResultsOnModels uselist pvr pvm current).assignments.countP
      (fun p => p.1 == oid) =
      ((setResultsOnModels uselist pvr pvm current).assignments.map Prod.fst).countP
      (fun x => x == oid) := by
    rw [List.countP_map]
    rfl
  rw [h2, setResultsOnModels, h1, List.countP_map]
  rfl

/-! ### Projections of `emitLazyload` and session-write lemmas -/

/-- The single bulk query `_emit_lazyload` builds before calling `q.all()`. -/
def bulkQuery (L : Loader) (h : ClassHierarchy) (session : Session)
    (current : ModelObj) : QueryModel :=
  { select_from_secondary := L.cfg.secondary
    order_by := L.cfg.order_by
    static_filters :=
      match L.cfg.secondary, L.cfg.criterion with
      | some _, .boolList _ clauses => clauses.filter clauseHasNoParameters
      | _, _ => []
    in_col := L.join_col
    in_values := (getSimilarUnpopulatedModels L.cfg.key h current session).map
      (fun m => getModelValue m L.ident) }

theorem emitLazyload_queries (L : Loader) (h : ClassHierarchy) (session : Session)
    (current : ModelObj) (db : QueryModel → List (Nat × Val)) :
    (emitLazyload L h session current db).queries = [bulkQuery L h session current] :=
  rfl

theorem emitLazyload_assignments (L : Loader) (h : ClassHierarchy) (session : Session)
    (current : ModelObj) (db : QueryModel → List (Nat × Val)) :
    (emitLazyload L h session current db).assignments =
      (setResultsOnModels L.cfg.uselist
        ((db (bulkQuery L h session current)).foldl
          (fun g r => insertGrouped g r.2 r.1) [])
        ((getSimilarUnpopulatedModels L.cfg.key h current session).foldl
          (fun g m => insertGrouped g (getModelValue m L.ident) m) [])
        current).assignments :=
  rfl

theorem emitLazyload_result (L : Loader) (h : ClassHierarchy) (session : Session)
    (current : ModelObj) (db : QueryModel → List (Nat × Val)) :
    (emitLazyload L h session current db).result =
      (setResultsOnModels L.cfg.uselist
        ((db (bulkQuery L h session current)).foldl
          (fun g r => insertGrouped g r.2 r.1) [])
        ((getSimilarUnpopulatedModels L.cfg.key h current session).foldl
          (fun g m => insertGrouped g (getModelValue m L.ident) m) [])
        current).current_result :=
  rfl

theorem emit_countP_assignments (L : Loader) (h : ClassHierarchy) (session : Session)
    (current : ModelObj) (db : QueryModel → List (Nat × Val)) (oid : Nat) :
    (emitLazyload L h session current db).assignments.countP (fun p => p.1 == oid) =
      (getSimilarUnpopulatedModels L.cfg.key h current session).countP
        (fun m => m.oid == oid) := by
  rw [emitLazyload_assignments, setResults_countP]
  have := countP_joinGrouped_foldl (fun m => getModelValue m L.ident)
    (getSimilarUnpopulatedModels L.cfg.key h current session) []
    (fun m => m.oid == oid)
  simpa [joinGrouped] using this

theorem mem_similar_iff (key : String) (h : ClassHierarchy) (trig : ModelObj)
    (session : Session) (m : ModelObj) :
    m ∈ getSimilarUnpopulatedModels key h trig session ↔
      m ∈ session.identity_map ∧ isinstance h m.cls trig.cls = true ∧
        session.newObjs.contains m.oid = false ∧ hasKey m.dict_ key = false := by
  rw [getSimilarUnpopulatedModels, List.mem_filter]
  constructor
  · rintro ⟨h1, h2⟩
    simp only [Bool.and_eq_true, Bool.not_eq_true'] at h2
    exact ⟨h1, h2.1.1, h2.1.2, h2.2⟩
  · rintro ⟨h1, h2, h3, h4⟩
    refine ⟨h1, ?_⟩
    simp at h3
    simp [h2, h3, h4]

theorem hasKey_setKeyIn (d : List (String × PyVal)) (k : String) (v : PyVal) :
    hasKey (setKeyIn d k v) k = true := by
  rw [setKeyIn]
  by_cases hd : hasKey d k
  · rw [if_pos hd]
    rw [hasKey, List.any_eq_true] at hd ⊢
    obtain ⟨p, hp, hpk⟩ := hd
    refine ⟨(k, v), List.mem_map.mpr ⟨p, hp, ?_⟩, by simp⟩
    simp [hpk]
  · rw [if_neg hd]
    rw [hasKey, List.any_eq_true]
    exact ⟨(k, v), by simp, by simp⟩

/-- All models of the session keep their object identity under a
`set_committed_value` write, and a model whose identity matches the write
ends up with the attribute present in its dict. -/
theorem mem_setCommittedValue (session : Session) (oid : Nat) (k : String)
    (v : PyVal) (m' : ModelObj)
    (hm' : m' ∈ (setCommittedValue session oid k v).identity_map) :
    ∃ m ∈ session.identity_map, m'.oid = m.oid ∧
      (m'.oid = oid → hasKey m'.dict_ k = true) ∧
      (hasKey m.dict_ k = true → hasKey m'.dict_ k = true) := by
  rw [setCommittedValue] at hm'
  simp only [List.mem_map] at hm'
  obtain ⟨m, hm, hupd⟩ := hm'
  by_cases ho : (m.oid == oid) = true
  · rw [if_pos ho] at hupd
    refine ⟨m, hm, by rw [← hupd], ?_, ?_⟩
    · intro _
      rw [← hupd]
      exact hasKey_setKeyIn m.dict_ k v
    · intro _
      rw [← hupd]
      exact hasKey_setKeyIn m.dict_ k v
  · rw [if_neg ho] at hupd
    refine ⟨m, hm, by rw [← hupd], ?_, ?_⟩
    · intro he
      rw [← hupd] at he
      exact absurd (by simp [he]) ho
    · intro hk
      rw [← hupd]
      exact hk

/-- Chaining `mem_setCommittedValue` over a whole assignment list: every model
of the updated session descends from a model of the original session with the
same identity, and once some write in the list targets its identity the
relationship attribute is present afterwards. -/
theorem mem_applyAssignments (k : String) (as : List (Nat × PyVal))
    (session : Session) (m' : ModelObj)
    (hm' : m' ∈ (applyAssignments session k as).identity_map) :
    ∃ m ∈ session.identity_map, m'.oid = m.oid ∧
      ((m'.oid ∈ as.map Prod.fst → hasKey m'.dict_ k = true) ∧
       (hasKey m.dict_ k = true → hasKey m'.dict_ k = true)) := by
  induction as generalizing session with
  | nil =>
    exact ⟨m', hm', rfl, by simp, fun hk => hk⟩
  | cons a rest ih =>
    obtain ⟨oid0, v0⟩ := a
    rw [applyAssignments] at hm'
    obtain ⟨m1, hm1, hoid1, hkey1⟩ := ih (setCommittedValue session oid0 k v0) hm'
    obtain ⟨m0, hm0, hoid0, hknew, hkold⟩ :=
      mem_setCommittedValue session oid0 k v0 m1 hm1
    refine ⟨m0, hm0, hoid1.trans hoid0, ?_, ?_⟩
    · intro hmem
      rw [List.map_cons] at hmem
      rcases List.mem_cons.mp hmem with h0 | h0
      · exact hkey1.2 (hknew (hoid1.symm.trans h0))
      · exact hkey1.1 h0
    · intro hk
      exact hkey1.2 (hkold hk)

/-- A model whose relationship attribute is present is never a sibling. -/
theorem not_mem_similar_of_hasKey (key : String) (h : ClassHierarchy)
    (trig : ModelObj) (session : Session) (m : ModelObj)
    (hk : hasKey m.dict_ key = true) :
    m ∉ getSimilarUnpopulatedModels key h trig session := by
  intro hmem
  have := (mem_similar_iff key h trig session m).mp hmem
  rw [this.2.2.2] at hk
  exact Bool.false_ne_true hk

/-! ### Concrete fixtures used by witnesses and counterexamples -/

/-- A flat class hierarchy: every class is only an instance of itself. -/
def wHier : ClassHierarchy := ⟨fun c => [c]⟩

/-- A hierarchy where class 1 is a strict subclass of class 0. -/
def wHierSub : ClassHierarchy := ⟨fun c => if c = 1 then [1, 0] else [c]⟩

/-- A simple valid to-one relation: `col 0 = :param`, param ident is column 1. -/
def wCfg : RelationConfig :=
  ⟨.binary (.col 0) (.bindParam 0 (some 1) none) .eq, none, [], false, "rel", "User"⟩

def wLoader : Loader := ⟨wCfg, 0, 1⟩

/-- The same relation with `uselist=True`. -/
def wCfgMany : RelationConfig :=
  ⟨.binary (.col 0) (.bindParam 0 (some 1) none) .eq, none, [], true, "rel", "User"⟩

def wLoaderMany : Loader := ⟨wCfgMany, 0, 1⟩

def wModelA : ModelObj := ⟨0, 0, [], [(1, some 7)]⟩
def wModelB : ModelObj := ⟨1, 0, [], [(1, some 8)]⟩
def wModelNew : ModelObj := ⟨2, 0, [], [(1, some 9)]⟩
def wModelDone : ModelObj := ⟨3, 0, [("rel", .pyNone)], [(1, some 10)]⟩

/-- A session with two loadable owners, one new owner, one resolved owner. -/
def wSession : Session := ⟨[wModelA, wModelB, wModelNew, wModelDone], [2]⟩

/-- Concrete query oracle: three rows, one for key 7 and two for key 8. -/
def wDb : QueryModel → List (Nat × Val) :=
  fun _ => [(100, some 7), (101, some 8), (102, some 8)]

/-! ### C1 -/

/-- C1: triggering a lazy load issues exactly one query no matter how many
siblings exist (a batch of one included), and that one query's key set covers
every sibling's join-key value. -/
theorem bulk_load_single_query (L : Loader) (h : ClassHierarchy) (session : Session)
    (current : ModelObj) (db : QueryModel → List (Nat × Val)) :
    (emitLazyload L h session current db).queries.length = 1 ∧
    ∀ m ∈ getSimilarUnpopulatedModels L.cfg.key h current session,
      getModelValue m L.ident ∈ (bulkQuery L h session current).in_values := by
  refine ⟨rfl, ?_⟩
  intro m hm
  exact List.mem_map_of_mem _ hm

/-- Witness for C1 on a concrete session: the single query covers the sibling
keys. -/
theorem bulk_load_single_query_witness :
    (wModelB ∈ getSimilarUnpopulatedModels wLoader.cfg.key wHier wModelA wSession) ∧
    (emitLazyload wLoader wHier wSession wModelA wDb).queries.length = 1 ∧
    getModelValue wModelB wLoader.ident ∈
      (bulkQuery wLoader wHier wSession wModelA).in_values := by
  refine ⟨by decide, (bulk_load_single_query wLoader wHier wSession wModelA wDb).1, ?_⟩
  exact (bulk_load_single_query wLoader wHier wSession wModelA wDb).2 wModelB (by decide)

/-! ### C4 -/

/-- `_extract_non_list_result` keeps the first row (null when there is none). -/
theorem extractNonListResult_fst (bucket : List Nat) :
    (extractNonListResult bucket).1 = bucket.head?.elim PyVal.pyNone PyVal.row := by
  cases bucket with
  | nil => rfl
  | cons a rest => cases rest <;> rfl

/-- `_extract_non_list_result` warns exactly when more than one row arrived. -/
theorem extractNonListResult_snd (bucket : List Nat) :
    ((extractNonListResult bucket).2 = true ↔ 2 ≤ bucket.length) := by
  cases bucket with
  | nil => simp [extractNonListResult]
  | cons a rest =>
    cases rest with
    | nil => simp [extractNonListResult]
    | cons b rest2 => simp [extractNonListResult]

/-- C4: for a `uselist=False` relationship, every value distribution writes
belongs to a discovered sibling and is `_extract_non_list_result` of that
owner's own key bucket — the query's rows whose reported key equals the
owner's join-key value, in the query's own order: an empty bucket gives
`None`, a one-row bucket gives that row, a longer bucket gives the first row
in query order together with the non-fatal multiplicity warning (exactly when
the bucket has at least two rows) — no case raises. -/
theorem to_one_extract_spec (L : Loader) (h : ClassHierarchy) (session : Session)
    (current : ModelObj) (db : QueryModel → List (Nat × Val))
    (hu : L.cfg.uselist = false) (p : Nat × PyVal)
    (hp : p ∈ (emitLazyload L h session current db).assignments) :
    ∃ m ∈ getSimilarUnpopulatedModels L.cfg.key h current session, p.1 = m.oid ∧
      ∃ bucket, bucket = ((db (bulkQuery L h session current)).filter
          (fun r => r.2 == getModelValue m L.ident)).map Prod.fst ∧
        p.2 = (extractNonListResult bucket).1 ∧
        (extractNonListResult bucket).1 = bucket.head?.elim PyVal.pyNone PyVal.row ∧
        ((extractNonListResult bucket).2 = true ↔ 2 ≤ bucket.length) := by
  rw [emitLazyload_assignments, setResultsOnModels] at hp
  rcases distributeAll_mem L.cfg.uselist
      ((db (bulkQuery L h session current)).foldl
        (fun g r => insertGrouped g r.2 r.1) [])
      ((getSimilarUnpopulatedModels L.cfg.key h current session).foldl
        (fun g s => insertGrouped g (getModelValue s L.ident) s) [])
      current _ p hp with hin | ⟨v, models, m', hvm, hm', hpo, a, hval2⟩
  · simp at hin
  · obtain ⟨hm'sim, hm'key⟩ :=
      mem_grouped_key (fun s => getModelValue s L.ident) _ v models hvm m' hm'
    refine ⟨m', hm'sim, hpo,
      lookupGrouped ((db (bulkQuery L h session current)).foldl
        (fun g r => insertGrouped g r.2 r.1) []) v, ?_, ?_,
      extractNonListResult_fst _, extractNonListResult_snd _⟩
    · rw [hm'key]
      have hlf := lookupGrouped_foldl Prod.snd Prod.fst
        (db (bulkQuery L h session current)) [] v
      simpa [lookupGrouped] using hlf
    · rw [hu] at hval2
      simpa using hval2

/-- Witness for C4: the concrete owner with two matching rows receives the
first row of its own bucket, with the multiplicity diagnostic. -/
theorem to_one_extract_spec_witness :
    ((1, PyVal.row 101) ∈ (emitLazyload wLoader wHier wSession wModelA wDb).assignments) ∧
    ∃ m ∈ getSimilarUnpopulatedModels wLoader.cfg.key wHier wModelA wSession,
      (1, PyVal.row 101).1 = m.oid ∧
      ∃ bucket, bucket = ((wDb (bulkQuery wLoader wHier wSession wModelA)).filter
          (fun r => r.2 == getModelValue m wLoader.ident)).map Prod.fst ∧
        (1, PyVal.row 101).2 = (extractNonListResult bucket).1 ∧
        (extractNonListResult bucket).1 = bucket.head?.elim PyVal.pyNone PyVal.row ∧
        ((extractNonListResult bucket).2 = true ↔ 2 ≤ bucket.length) :=
  ⟨by decide, to_one_extract_spec wLoader wHier wSession wModelA wDb rfl
    (1, PyVal.row 101) (by decide)⟩

/-! ### C6 -/

/-- A relation whose lazy criterion compares the owner column with the bound
parameter using `<` rather than `=`. -/
def c6Cfg : RelationConfig :=
  ⟨.binary (.col 0) (.bindParam 0 (some 1) none) .lt, none, [], false, "rel", "User"⟩

/-- C6 counterexample: `_validate_relation` never inspects the binary
expression's operator, so a non-equality comparison between the owner column
and the unset bound parameter is accepted — the claim's "only … a single
equality" is too strong. -/
theorem validate_accepts_non_equality :
    validateRelation c6Cfg = true ∧ mkLoader c6Cfg = .ok ⟨c6Cfg, 0, 1⟩ :=
  ⟨rfl, rfl⟩

/-- Relates the join-column search on a binary criterion to its operand shape. -/
theorem getJoinCol_binary_shape (l r : Operand) (op : SqlOperator)
    (hs : (getJoinColFromCriterion (.binary l r op)).isSome = true) :
    (∃ c k i v, l = .col c ∧ r = .bindParam k i v) ∨
    (∃ c k i v, r = .col c ∧ l = .bindParam k i v) := by
  cases l <;> cases r <;>
    simp_all [getJoinColFromCriterion]

/-- C6 amended: without a secondary table, validation accepts the relationship
iff the join condition is a single binary comparison — of any operator, not
necessarily an equality — between exactly one owner column and exactly one
bound parameter whose value is unset and whose ident column is known; every
rejected configuration raises `UnsupportedRelationError` with the message
naming the owner type and the relationship name. -/
theorem validate_no_secondary_characterization (cfg : RelationConfig)
    (hsec : cfg.secondary = none) :
    (validateRelation cfg = true ↔
      ∃ op c k i,
        cfg.criterion = .binary (.col c) (.bindParam k (some i) none) op ∨
        cfg.criterion = .binary (.bindParam k (some i) none) (.col c) op) ∧
    (validateRelation cfg = false →
      mkLoader cfg = .error (unsupportedRelationMsg cfg)) := by
  constructor
  · constructor
    · intro hv
      rw [validateRelation] at hv
      simp only [hsec, Bool.and_eq_true, beq_iff_eq] at hv
      obtain ⟨⟨⟨hshape, hjoin⟩, hlen⟩, hok⟩ := hv
      cases hcrit : cfg.criterion with
      | boolList bop clauses => rw [hcrit] at hshape; simp at hshape
      | binary l r op =>
        rw [hcrit] at hjoin
        rcases getJoinCol_binary_shape l r op hjoin with
          ⟨c, k, i, v, hl, hr⟩ | ⟨c, k, i, v, hr, hl⟩
        · subst hl; subst hr
          rw [hcrit] at hok
          simp only [collectParamKeys, operandParamKeys, List.nil_append, paramKeyOk,
            Bool.and_eq_true, Option.isNone_iff_eq_none, Option.isSome_iff_exists] at hok
          obtain ⟨hvnone, i', hi⟩ := hok
          subst hvnone
          subst hi
          exact ⟨op, c, k, i', Or.inl rfl⟩
        · subst hl; subst hr
          rw [hcrit] at hok
          simp only [collectParamKeys, operandParamKeys, List.append_nil, paramKeyOk,
            Bool.and_eq_true, Option.isNone_iff_eq_none, Option.isSome_iff_exists] at hok
          obtain ⟨hvnone, i', hi⟩ := hok
          subst hvnone
          subst hi
          exact ⟨op, c, k, i', Or.inr rfl⟩
    · rintro ⟨op, c, k, i, hc | hc⟩ <;>
        simp [validateRelation, hsec, hc, getJoinColFromCriterion, collectParamKeys,
          operandParamKeys, paramKeyOk]
  · intro hv
    rw [mkLoader, hv]
    simp

/-- Witness for C6 amended, at the concrete accepted relation `wCfg`. -/
theorem validate_no_secondary_characterization_witness :
    wCfg.secondary = none ∧
    ((validateRelation wCfg = true ↔
      ∃ op c k i,
        wCfg.criterion = .binary (.col c) (.bindParam k (some i) none) op ∨
        wCfg.criterion = .binary (.bindParam k (some i) none) (.col c) op) ∧
    (validateRelation wCfg = false →
      mkLoader wCfg = .error (unsupportedRelationMsg wCfg))) :=
  ⟨rfl, validate_no_secondary_characterization wCfg rfl⟩

/-! ### C2 -/

/-- Identity-map object identities determine the model when they are unique. -/
theorem oid_injective_of_nodup (session : Session)
    (hnodup : (session.identity_map.map ModelObj.oid).Nodup)
    (m m' : ModelObj) (hm : m ∈ session.identity_map)
    (hm' : m' ∈ session.identity_map) (h : m.oid = m'.oid) : m = m' :=
  List.inj_on_of_nodup_map hnodup hm hm' h

/-- C2: an identity-map model that is new or whose relationship attribute is
already present is excluded from sibling discovery, the batched key set is
built from the sibling models only, and no distribution write targets the
excluded model's identity. -/
theorem excluded_models_untouched (L : Loader) (h : ClassHierarchy)
    (session : Session) (current : ModelObj) (db : QueryModel → List (Nat × Val))
    (m : ModelObj) (hm : m ∈ session.identity_map)
    (hnodup : (session.identity_map.map ModelObj.oid).Nodup)
    (hex : session.newObjs.contains m.oid = true ∨ hasKey m.dict_ L.cfg.key = true) :
    m ∉ getSimilarUnpopulatedModels L.cfg.key h current session ∧
    (bulkQuery L h session current).in_values =
      (getSimilarUnpopulatedModels L.cfg.key h current session).map
        (fun s => getModelValue s L.ident) ∧
    ∀ p ∈ (emitLazyload L h session current db).assignments, p.1 ≠ m.oid := by
  have hnotmem : m ∉ getSimilarUnpopulatedModels L.cfg.key h current session := by
    intro hmem
    obtain ⟨_, _, hnew, hkey⟩ := (mem_similar_iff _ h current session m).mp hmem
    rcases hex with he | he
    · rw [hnew] at he
      exact Bool.false_ne_true he
    · rw [hkey] at he
      exact Bool.false_ne_true he
  refine ⟨hnotmem, rfl, ?_⟩
  have hzero : (getSimilarUnpopulatedModels L.cfg.key h current session).countP
      (fun s => s.oid == m.oid) = 0 := by
    rw [List.countP_eq_zero]
    intro s hs hbeq
    have hseq : s.oid = m.oid := by simpa using hbeq
    have hsid : s ∈ session.identity_map :=
      ((mem_similar_iff _ h current session s).mp hs).1
    have hsm : s = m := oid_injective_of_nodup session hnodup s m hsid hm hseq
    exact hnotmem (hsm ▸ hs)
  intro p hp hpm
  have hcnt := emit_countP_assignments L h session current db m.oid
  rw [hzero, List.countP_eq_zero] at hcnt
  exact hcnt p hp (by simpa using hpm)

/-- Witness for C2: the already-resolved owner `wModelDone` is excluded and
never written. -/
theorem excluded_models_untouched_witness :
    hasKey wModelDone.dict_ wLoader.cfg.key = true ∧
    (wModelDone ∉ getSimilarUnpopulatedModels wLoader.cfg.key wHier wModelA wSession ∧
     (bulkQuery wLoader wHier wSession wModelA).in_values =
       (getSimilarUnpopulatedModels wLoader.cfg.key wHier wModelA wSession).map
         (fun s => getModelValue s wLoader.ident) ∧
     ∀ p ∈ (emitLazyload wLoader wHier wSession wModelA wDb).assignments,
       p.1 ≠ wModelDone.oid) :=
  ⟨by decide, excluded_models_untouched wLoader wHier wSession wModelA wDb wModelDone
    (by decide) (by decide) (Or.inr (by decide))⟩

/-! ### C9 -/

/-- C9: when the triggering owner takes part in the batch (it is one of the
discovered siblings) and session identities are unique, distribution writes
exactly one value for the triggering owner, and `_emit_lazyload` returns
exactly that value. -/
theorem emit_returns_triggering_value (L : Loader) (h : ClassHierarchy)
    (session : Session) (current : ModelObj) (db : QueryModel → List (Nat × Val))
    (hmem : current ∈ getSimilarUnpopulatedModels L.cfg.key h current session)
    (hnodup : (session.identity_map.map ModelObj.oid).Nodup) :
    (emitLazyload L h session current db).assignments.filter
        (fun p => p.1 == current.oid) =
      [(current.oid, (emitLazyload L h session current db).result)] := by
  have hnd : ((getSimilarUnpopulatedModels L.cfg.key h current session).map
      ModelObj.oid).Nodup :=
    hnodup.sublist (List.Sublist.map ModelObj.oid (List.filter_sublist _))
  have hle : (getSimilarUnpopulatedModels L.cfg.key h current session).countP
      (fun s => s.oid == current.oid) ≤ 1 := by
    have h1 : ((getSimilarUnpopulatedModels L.cfg.key h current session).map
        ModelObj.oid).countP (fun x => x == current.oid) =
        (getSimilarUnpopulatedModels L.cfg.key h current session).countP
        (fun s => s.oid == current.oid) := by
      rw [List.countP_map]
      rfl
    rw [← h1]
    exact List.nodup_iff_count_le_one.mp hnd current.oid
  have hge : 0 < (getSimilarUnpopulatedModels L.cfg.key h current session).countP
      (fun s => s.oid == current.oid) := by
    rw [List.countP_pos_iff]
    exact ⟨current, hmem, by simp⟩
  have hone : (getSimilarUnpopulatedModels L.cfg.key h current session).countP
      (fun s => s.oid == current.oid) = 1 :=
    Nat.le_antisymm hle hge
  have hjoin : (joinGrouped ((getSimilarUnpopulatedModels L.cfg.key h current
      session).foldl (fun g m => insertGrouped g (getModelValue m L.ident) m)
      [])).countP (fun s => s.oid == current.oid) = 1 := by
    rw [countP_joinGrouped_foldl]
    simpa [joinGrouped] using hone
  have heq := distributeAll_filter_one L.cfg.uselist
    ((db (bulkQuery L h session current)).foldl (fun g r => insertGrouped g r.2 r.1) [])
    ((getSimilarUnpopulatedModels L.cfg.key h current session).foldl
      (fun g m => insertGrouped g (getModelValue m L.ident) m) [])
    current ⟨[], 0, .pyNone⟩ hjoin
  rw [emitLazyload_assignments, emitLazyload_result, setResultsOnModels, heq]
  simp

/-- Witness for C9 on the concrete session: the trigger gets row 100 and the
call returns it. -/
theorem emit_returns_triggering_value_witness :
    (wModelA ∈ getSimilarUnpopulatedModels wLoader.cfg.key wHier wModelA wSession) ∧
    (emitLazyload wLoader wHier wSession wModelA wDb).assignments.filter
        (fun p => p.1 == wModelA.oid) =
      [(wModelA.oid, (emitLazyload wLoader wHier wSession wModelA wDb).result)] :=
  ⟨by decide, emit_returns_triggering_value wLoader wHier wSession wModelA wDb
    (by decide) (by decide)⟩

/-! ### C10 -/

/-- C10: sibling discovery uses `isinstance` against the triggering model's
concrete class, so an identity-map instance of any class that `isinstance`
accepts (in particular a strict subclass), not new and unresolved, is itself a
sibling: its join key enters the batched key set and it receives a write;
instances of classes rejected by `isinstance` (superclasses, unrelated
classes) are excluded. -/
theorem subclass_instances_are_siblings (L : Loader) (h : ClassHierarchy)
    (session : Session) (trig : ModelObj) (db : QueryModel → List (Nat × Val))
    (m : ModelObj) (hm : m ∈ session.identity_map)
    (hinst : isinstance h m.cls trig.cls = true)
    (hnew : session.newObjs.contains m.oid = false)
    (hkey : hasKey m.dict_ L.cfg.key = false) :
    m ∈ getSimilarUnpopulatedModels L.cfg.key h trig session ∧
    getModelValue m L.ident ∈ (bulkQuery L h session trig).in_values ∧
    (∃ p ∈ (emitLazyload L h session trig db).assignments, p.1 = m.oid) ∧
    (∀ m', m' ∈ session.identity_map → isinstance h m'.cls trig.cls = false →
      m' ∉ getSimilarUnpopulatedModels L.cfg.key h trig session) := by
  have hmem : m ∈ getSimilarUnpopulatedModels L.cfg.key h trig session :=
    (mem_similar_iff L.cfg.key h trig session m).mpr ⟨hm, hinst, hnew, hkey⟩
  refine ⟨hmem, List.mem_map_of_mem _ hmem, ?_, ?_⟩
  · have hpos : 0 < (emitLazyload L h session trig db).assignments.countP
        (fun p => p.1 == m.oid) := by
      rw [emit_countP_assignments, List.countP_pos_iff]
      exact ⟨m, hmem, by simp⟩
    rw [List.countP_pos_iff] at hpos
    obtain ⟨p, hp, hpm⟩ := hpos
    exact ⟨p, hp, by simpa using hpm⟩
  · intro m' hm' hinst' hmem'
    have hprops := (mem_similar_iff L.cfg.key h trig session m').mp hmem'
    rw [hprops.2.1] at hinst'
    simp at hinst'

/-- A strict subclass instance and an unrelated-class instance for C10. -/
def wSub : ModelObj := ⟨10, 1, [], [(1, some 11)]⟩

def wAlien : ModelObj := ⟨11, 7, [], []⟩

def wSessionSub : Session := ⟨[wModelA, wSub, wAlien], []⟩

/-- Witness for C10: the subclass instance `wSub` (class 1 <: class 0) is a
sibling of the class-0 trigger and is written; the unrelated-class instance is
excluded. -/
theorem subclass_instances_are_siblings_witness :
    isinstance wHierSub wSub.cls wModelA.cls = true ∧
    wSub ∈ getSimilarUnpopulatedModels wLoader.cfg.key wHierSub wModelA wSessionSub ∧
    getModelValue wSub wLoader.ident ∈
      (bulkQuery wLoader wHierSub wSessionSub wModelA).in_values ∧
    (∃ p ∈ (emitLazyload wLoader wHierSub wSessionSub wModelA wDb).assignments,
      p.1 = wSub.oid) ∧
    wAlien ∉ getSimilarUnpopulatedModels wLoader.cfg.key wHierSub wModelA wSessionSub := by
  have hth := subclass_instances_are_siblings wLoader wHierSub wSessionSub wModelA wDb
    wSub (by decide) (by decide) (by decide) (by decide)
  exact ⟨by decide, hth.1, hth.2.1, hth.2.2.1, hth.2.2.2 wAlien (by decide) (by decide)⟩

/-! ### C5 -/

/-- C5: with `uselist=True`, every distributed value belongs to a discovered
sibling and is a list whose contents are exactly the query's rows for that
owner's own join-key value, in the query's own order (empty when no row
reported that key), carried under a fresh allocation identity — the write's
own position in the write sequence — so two distinct writes never share a
list instance and no owner's later mutation can reach another owner's list. -/
theorem to_many_independent_copies (L : Loader) (h : ClassHierarchy)
    (session : Session) (current : ModelObj) (db : QueryModel → List (Nat × Val))
    (hu : L.cfg.uselist = true) (j k : Nat) (hjk : j ≠ k)
    (pj pk : Nat × PyVal)
    (hj : (emitLazyload L h session current db).assignments[j]? = some pj)
    (hk : (emitLazyload L h session current db).assignments[k]? = some pk) :
    (∃ m ∈ getSimilarUnpopulatedModels L.cfg.key h current session,
      ∃ rows, pk = (m.oid, PyVal.list rows k) ∧
        rows = ((db (bulkQuery L h session current)).filter
          (fun r => r.2 == getModelValue m L.ident)).map Prod.fst) ∧
    pj.2 ≠ pk.2 := by
  have hass : (emitLazyload L h session current db).assignments =
      (distributeAll true
        ((db (bulkQuery L h session current)).foldl
          (fun g r => insertGrouped g r.2 r.1) [])
        ((getSimilarUnpopulatedModels L.cfg.key h current session).foldl
          (fun g m => insertGrouped g (getModelValue m L.ident) m) [])
        current ⟨[], 0, .pyNone⟩).assignments := by
    rw [emitLazyload_assignments, setResultsOnModels, hu]
  have hinv : listInvP
      ((db (bulkQuery L h session current)).foldl
        (fun g r => insertGrouped g r.2 r.1) [])
      (fun m v => m ∈ getSimilarUnpopulatedModels L.cfg.key h current session ∧
        getModelValue m L.ident = v)
      (distributeAll true
        ((db (bulkQuery L h session current)).foldl
          (fun g r => insertGrouped g r.2 r.1) [])
        ((getSimilarUnpopulatedModels L.cfg.key h current session).foldl
          (fun g m => insertGrouped g (getModelValue m L.ident) m) [])
        current ⟨[], 0, .pyNone⟩) := by
    refine distributeAll_listInvP _ _ _ current _ ?_ ?_
    · intro v models hvm m hm
      exact mem_grouped_key (fun s => getModelValue s L.ident) _ v models hvm m hm
    · intro i hi
      simp at hi
  rw [hass] at hj hk
  obtain ⟨hklt, hkeq⟩ := List.getElem?_eq_some_iff.mp hk
  obtain ⟨hjlt, hjeq⟩ := List.getElem?_eq_some_iff.mp hj
  obtain ⟨mk, vk, hvk, hmk, hkval⟩ := hinv k hklt
  obtain ⟨mj, vj, hvj, hmj, hjval⟩ := hinv j hjlt
  constructor
  · refine ⟨mk, hmk, lookupGrouped
      ((db (bulkQuery L h session current)).foldl
        (fun g r => insertGrouped g r.2 r.1) []) vk, ?_, ?_⟩
    · rw [← hkeq, hvk]
    · rw [hkval]
      have hlk := lookupGrouped_foldl Prod.snd Prod.fst
        (db (bulkQuery L h session current)) [] vk
      simpa [lookupGrouped] using hlk
  · intro hcontra
    rw [← hjeq, hvj, ← hkeq, hvk] at hcontra
    simp only [PyVal.list.injEq] at hcontra
    exact hjk hcontra.2

/-- Witness for C5: two concrete owners in one distribution receive lists with
distinct allocation identities, each holding its own key's rows. -/
theorem to_many_independent_copies_witness :
    ((emitLazyload wLoaderMany wHier wSession wModelA wDb).assignments[0]? =
      some (0, PyVal.list [100] 0)) ∧
    ((emitLazyload wLoaderMany wHier wSession wModelA wDb).assignments[1]? =
      some (1, PyVal.list [101, 102] 1)) ∧
    (∃ m ∈ getSimilarUnpopulatedModels wLoaderMany.cfg.key wHier wModelA wSession,
      ∃ rows, (1, PyVal.list [101, 102] 1) = (m.oid, PyVal.list rows 1) ∧
        rows = ((wDb (bulkQuery wLoaderMany wHier wSession wModelA)).filter
          (fun r => r.2 == getModelValue m wLoaderMany.ident)).map Prod.fst) ∧
    (0, PyVal.list [100] 0).2 ≠ (1, PyVal.list [101, 102] 1).2 := by
  refine ⟨by decide, by decide, ?_⟩
  exact to_many_independent_copies wLoaderMany wHier wSession wModelA wDb rfl 0 1
    (by decide) (0, PyVal.list [100] 0) (1, PyVal.list [101, 102] 1)
    (by decide) (by decide)

/-! ### C7 -/

/-- C7: a validated secondary-table relationship has an `and_` conjunction of
binary clauses with exactly one bound-parameter slot as its join condition,
and the one batched query re-applies every parameter-free clause of that
condition as a static filter, alongside the `join_col IN keys` predicate, the
secondary `select_from` and the configured ordering. -/
theorem secondary_shape_and_query (L : Loader) (h : ClassHierarchy)
    (session : Session) (current : ModelObj) (db : QueryModel → List (Nat × Val))
    (t : Nat) (hsec : L.cfg.secondary = some t)
    (hv : validateRelation L.cfg = true) :
    ∃ clauses, L.cfg.criterion = .boolList .andOp clauses ∧
      (∀ c ∈ clauses, isBinaryExpr c = true) ∧
      (collectParamKeys L.cfg.criterion).length = 1 ∧
      (emitLazyload L h session current db).queries =
        [{ select_from_secondary := some t
           order_by := L.cfg.order_by
           static_filters := clauses.filter clauseHasNoParameters
           in_col := L.join_col
           in_values := (getSimilarUnpopulatedModels L.cfg.key h current session).map
             (fun m => getModelValue m L.ident) }] := by
  rw [validateRelation] at hv
  simp only [hsec, Bool.and_eq_true, beq_iff_eq] at hv
  obtain ⟨⟨⟨hshape, hjoin⟩, hlen⟩, hok⟩ := hv
  cases hcrit : L.cfg.criterion with
  | binary l r op =>
    rw [hcrit] at hshape
    simp at hshape
  | boolList bop cls0 =>
    cases bop with
    | orOp =>
      rw [hcrit] at hshape
      simp at hshape
    | andOp =>
      rw [hcrit] at hshape
      simp only [List.all_eq_true] at hshape
      refine ⟨cls0, rfl, hshape, ?_, ?_⟩
      · rw [← hcrit]
        exact hlen
      · rw [emitLazyload_queries]
        simp only [bulkQuery, hsec, hcrit]

/-- A valid secondary-table relation: one parameter-free clause, one
column-parameter clause. -/
def wSecCfg : RelationConfig :=
  ⟨.boolList .andOp
      [.binary (.col 2) (.col 3) .eq,
       .binary (.col 0) (.bindParam 0 (some 1) none) .eq],
    some 5, [4], true, "things", "User"⟩

def wSecLoader : Loader := ⟨wSecCfg, 0, 1⟩

/-- Witness for C7 on the concrete secondary relation. -/
theorem secondary_shape_and_query_witness :
    wSecLoader.cfg.secondary = some 5 ∧
    validateRelation wSecLoader.cfg = true ∧
    ∃ clauses, wSecLoader.cfg.criterion = .boolList .andOp clauses ∧
      (∀ c ∈ clauses, isBinaryExpr c = true) ∧
      (collectParamKeys wSecLoader.cfg.criterion).length = 1 ∧
      (emitLazyload wSecLoader wHier wSession wModelA wDb).queries =
        [{ select_from_secondary := some 5
           order_by := wSecLoader.cfg.order_by
           static_filters := clauses.filter clauseHasNoParameters
           in_col := wSecLoader.join_col
           in_values := (getSimilarUnpopulatedModels wSecLoader.cfg.key wHier
             wModelA wSession).map (fun m => getModelValue m wSecLoader.ident) }] :=
  ⟨rfl, by decide,
    secondary_shape_and_query wSecLoader wHier wSession wModelA wDb 5 rfl (by decide)⟩

/-! ### C8 -/

/-- An owner whose join-key column is NULL/unset. -/
def c8Model : ModelObj := ⟨4, 0, [], []⟩

def c8Session : Session := ⟨[c8Model], []⟩

/-- Oracle for the null-key scenario: SQL `col IN (NULL)` matches no row. -/
def c8Db : QueryModel → List (Nat × Val) := fun _ => []

/-- C8 counterexample: `_emit_lazyload` appends every sibling's key to
`param_values` unconditionally, so a null join key IS included in the key set
submitted to the batched query, contrary to the claim. -/
theorem null_key_in_key_set :
    getModelValue c8Model wLoader.ident = (none : Val) ∧
    (emitLazyload wLoader wHier c8Session c8Model c8Db).queries.map
      QueryModel.in_values = [[(none : Val)]] :=
  ⟨rfl, rfl⟩

/-- C8 amended: the null join key is included in the submitted key set (it is
not filtered out); the null-keyed owner nonetheless resolves to `None` for a
to-one relationship whenever the query reports no row under the null key —
which SQL null-comparison semantics guarantee for the `IN` predicate. -/
theorem null_key_owner_resolves_none (L : Loader) (h : ClassHierarchy)
    (session : Session) (current : ModelObj) (db : QueryModel → List (Nat × Val))
    (hu : L.cfg.uselist = false)
    (m : ModelObj) (hm : m ∈ getSimilarUnpopulatedModels L.cfg.key h current session)
    (hval : getModelValue m L.ident = none)
    (hnodup : (session.identity_map.map ModelObj.oid).Nodup)
    (hdb : ∀ r ∈ db (bulkQuery L h session current), r.2 ≠ (none : Val)) :
    (none : Val) ∈ (bulkQuery L h session current).in_values ∧
    (∃ p ∈ (emitLazyload L h session current db).assignments, p.1 = m.oid) ∧
    (∀ p ∈ (emitLazyload L h session current db).assignments,
      p.1 = m.oid → p.2 = PyVal.pyNone) := by
  refine ⟨?_, ?_, ?_⟩
  · rw [← hval]
    exact List.mem_map_of_mem _ hm
  · have hpos : 0 < (emitLazyload L h session current db).assignments.countP
        (fun q => q.1 == m.oid) := by
      rw [emit_countP_assignments, List.countP_pos_iff]
      exact ⟨m, hm, by simp⟩
    rw [List.countP_pos_iff] at hpos
    obtain ⟨q, hq, hqm⟩ := hpos
    exact ⟨q, hq, by simpa using hqm⟩
  · intro p hp hpoid
    rw [emitLazyload_assignments, setResultsOnModels] at hp
    rcases distributeAll_mem L.cfg.uselist
        ((db (bulkQuery L h session current)).foldl
          (fun g r => insertGrouped g r.2 r.1) [])
        ((getSimilarUnpopulatedModels L.cfg.key h current session).foldl
          (fun g s => insertGrouped g (getModelValue s L.ident) s) [])
        current _ p hp with hin | ⟨v, models, m', hvm, hm', hpo, a, hval2⟩
    · simp at hin
    · have hnd : (((getSimilarUnpopulatedModels L.cfg.key h current session).foldl
          (fun g s => insertGrouped g (getModelValue s L.ident) s) []).map
          Prod.fst).Nodup :=
        nodupKeys_foldl _ _ [] (by simp)
      have hlook := lookupGrouped_of_mem _ v models hnd hvm
      have hmm : m' ∈ lookupGrouped
          ((getSimilarUnpopulatedModels L.cfg.key h current session).foldl
            (fun g s => insertGrouped g (getModelValue s L.ident) s) []) v := by
        rw [hlook]
        exact hm'
      obtain ⟨hm'sim, hm'key⟩ :=
        mem_bucket_foldl (fun s => getModelValue s L.ident) _ v m' hmm
      have hm'id : m' ∈ session.identity_map :=
        ((mem_similar_iff L.cfg.key h current session m').mp hm'sim).1
      have hmid : m ∈ session.identity_map :=
        ((mem_similar_iff L.cfg.key h current session m).mp hm).1
      have hmm' : m' = m :=
        oid_injective_of_nodup session hnodup m' m hm'id hmid (hpo.symm.trans hpoid)
      subst hmm'
      have hv : v = none := by
        rw [← hm'key, hval]
      have hbucket : lookupGrouped
          ((db (bulkQuery L h session current)).foldl
            (fun g r => insertGrouped g r.2 r.1) []) v = [] := by
        rw [hv]
        have hlf := lookupGrouped_foldl Prod.snd Prod.fst
          (db (bulkQuery L h session current)) [] (none : Val)
        simp only [lookupGrouped, List.nil_append] at hlf
        rw [hlf]
        have hfil : (db (bulkQuery L h session current)).filter
            (fun r => r.2 == (none : Val)) = [] := by
          rw [List.filter_eq_nil_iff]
          intro r hr
          simpa using hdb r hr
        rw [hfil, List.map_nil]
      rw [hu] at hval2
      rw [hbucket] at hval2
      simpa [extractNonListResult] using hval2

/-- Witness for C8 amended: the concrete null-keyed owner is grouped under the
null key and resolves to `None`. -/
theorem null_key_owner_resolves_none_witness :
    (c8Model ∈ getSimilarUnpopulatedModels wLoader.cfg.key wHier c8Model c8Session) ∧
    getModelValue c8Model wLoader.ident = none ∧
    ((none : Val) ∈ (bulkQuery wLoader wHier c8Session c8Model).in_values ∧
     (∃ p ∈ (emitLazyload wLoader wHier c8Session c8Model c8Db).assignments,
       p.1 = c8Model.oid) ∧
     (∀ p ∈ (emitLazyload wLoader wHier c8Session c8Model c8Db).assignments,
       p.1 = c8Model.oid → p.2 = PyVal.pyNone)) := by
  refine ⟨by decide, rfl, ?_⟩
  refine null_key_owner_resolves_none wLoader wHier c8Session c8Model c8Db rfl c8Model
    (by decide) rfl (by decide) ?_
  intro r hr
  simp [c8Db] at hr

/-! ### C3 -/

/-- C3: distribution writes through `set_committed_value`, which issues no
query and fires no lazy-load events: the whole resolution (writes included)
executes exactly one query, and after the writes are applied to the session
every written owner carries the relationship key in its instance dict — so a
later access finds it resolved and any later sibling discovery (for any
trigger) excludes it, making re-entry into the bulk loader impossible. -/
theorem distribution_non_reentrant (L : Loader) (h : ClassHierarchy)
    (session : Session) (current : ModelObj) (db : QueryModel → List (Nat × Val))
    (p : Nat × PyVal)
    (hp : p ∈ (emitLazyload L h session current db).assignments) :
    (emitLazyload L h session current db).queries.length = 1 ∧
    ∀ trig m', m' ∈ (applyAssignments session L.cfg.key
        (emitLazyload L h session current db).assignments).identity_map →
      m'.oid = p.1 →
      hasKey m'.dict_ L.cfg.key = true ∧
      m' ∉ getSimilarUnpopulatedModels L.cfg.key h trig
        (applyAssignments session L.cfg.key
          (emitLazyload L h session current db).assignments) := by
  refine ⟨rfl, ?_⟩
  intro trig m' hm' hoid
  obtain ⟨m0, hm0, hoid0, hkeys⟩ :=
    mem_applyAssignments L.cfg.key (emitLazyload L h session current db).assignments
      session m' hm'
  have hmem1 : m'.oid ∈ (emitLazyload L h session current db).assignments.map
      Prod.fst := by
    rw [hoid]
    exact List.mem_map_of_mem Prod.fst hp
  have hk : hasKey m'.dict_ L.cfg.key = true := hkeys.1 hmem1
  exact ⟨hk, not_mem_similar_of_hasKey _ h trig _ m' hk⟩

/-- Witness for C3: after resolving on the concrete session, the trigger's
updated instance holds the resolved row under the relationship key and is no
longer discovered as a sibling. -/
theorem distribution_non_reentrant_witness :
    ((0, PyVal.row 100) ∈ (emitLazyload wLoader wHier wSession wModelA wDb).assignments) ∧
    ((⟨0, 0, [("rel", PyVal.row 100)], [(1, some 7)]⟩ : ModelObj) ∈
      (applyAssignments wSession wLoader.cfg.key
        (emitLazyload wLoader wHier wSession wModelA wDb).assignments).identity_map) ∧
    (emitLazyload wLoader wHier wSession wModelA wDb).queries.length = 1 ∧
    hasKey (⟨0, 0, [("rel", PyVal.row 100)], [(1, some 7)]⟩ : ModelObj).dict_
      wLoader.cfg.key = true ∧
    (⟨0, 0, [("rel", PyVal.row 100)], [(1, some 7)]⟩ : ModelObj) ∉
      getSimilarUnpopulatedModels wLoader.cfg.key wHier wModelA
        (applyAssignments wSession wLoader.cfg.key
          (emitLazyload wLoader wHier wSession wModelA wDb).assignments) := by
  have hth := distribution_non_reentrant wLoader wHier wSession wModelA wDb
    (0, PyVal.row 100) (by decide)
  have happ := hth.2 wModelA
    (⟨0, 0, [("rel", PyVal.row 100)], [(1, some 7)]⟩ : ModelObj) (by decide) (by decide)
  exact ⟨by decide, by decide, hth.1, happ.1, happ.2⟩

end BulkLoad
